import Mathlib

/-!
Shallow embedding of the xsearch scanning engine
(`internal/scanner/engine.go`, `internal/output/printer.go`,
`internal/output/writer.go`) and proofs about its classifier,
deduplication and recursion bookkeeping.

Go strings are modelled as `List Char`; Go `int`/`int64` as `Int`;
Go maps used as sets as `List (List Char)` with membership checks;
the `soft404Sizes` count map as a function `Int → Nat` (Go map
lookups default to zero).  Stateful methods on `Engine` become
explicit state-passing functions.
-/

namespace XSearch

/-- A Go string, as a list of characters. -/
abbrev Str : Type := List Char

/-- Go `strings.TrimRight(s, "/")`: remove all trailing slash characters. -/
def trimSlashR (s : Str) : Str :=
  (s.reverse.dropWhile (fun c => c == '/')).reverse

/-- Go `strings.HasSuffix(s, "/")`: the last character is a slash. -/
def endsSlash (s : Str) : Bool :=
  match s.reverse with
  | [] => false
  | c :: _ => c == '/'

/-- Go `strings.TrimSpace`: drop leading and trailing whitespace. -/
def trimSp (s : Str) : Str :=
  ((s.dropWhile Char.isWhitespace).reverse.dropWhile Char.isWhitespace).reverse

/-- Go `strings.TrimPrefix(s, p)`: drop `p` from the front when it is there. -/
def dropPre (p s : Str) : Str :=
  if p.isPrefixOf s then s.drop p.length else s

/-- Go `strings.LastIndex(s, c)` for a single character: index of the last
occurrence, or `none` where Go returns `-1`. -/
def lastIndexOf (s : Str) (c : Char) : Option Nat :=
  match s with
  | [] => none
  | a :: rest =>
    match lastIndexOf rest c with
    | some i => some (i + 1)
    | none => if a = c then some 0 else none

/-- One calibration baseline: `type baseline struct { hash string; size int64 }`. -/
structure Baseline where
  hash : Str
  size : Int
deriving DecidableEq, Repr

/-- A scan result: `type Result struct { URL; StatusCode; Size; BodyHash; Depth; Error }`.
The Go `error` field is modelled by the flag `isError` (`Error != nil`). -/
structure Result where
  url : Str
  statusCode : Int
  size : Int
  bodyHash : Str
  depth : Nat
  isError : Bool
deriving DecidableEq, Repr

/-- The body of the loop of `Engine.isSoft404`: one baseline matches when the
hash is non-empty and equal, or the baseline size is positive and equal. -/
def baselineHit (h : Str) (s : Int) (b : Baseline) : Bool :=
  (!h.isEmpty && b.hash == h) || (decide (0 < b.size) && s == b.size)

/-- `Engine.isSoft404`: the response matches some calibration baseline. -/
def isSoft404 (bs : List Baseline) (h : Str) (s : Int) : Bool :=
  bs.any (baselineHit h s)

/-- `Engine.trackSoft404Size`: for 401/403 responses under 100 bytes,
increment the seen-count of that exact size; report a drop once the count
exceeds 10.  Returns the drop decision and the updated count map. -/
def trackSoft404Size (counts : Int → Nat) (size statusCode : Int) :
    Bool × (Int → Nat) :=
  if statusCode != 403 && statusCode != 401 then (false, counts)
  else if size < 100 then
    let c := counts size + 1
    (decide (c > 10), fun s => if s = size then c else counts s)
  else (false, counts)

/-- `Engine.isReliableResult`: status codes written to the output file. -/
def isReliableResult (statusCode : Int) : Bool :=
  statusCode == 200 || statusCode == 301 || statusCode == 302 ||
  statusCode == 307 || statusCode == 308 || statusCode == 403 ||
  statusCode == 401

/-- `Engine.isDirectory`: redirect status, trailing slash, or a dot-free final
path segment of the slash-trimmed URL. -/
def isDirectory (url : Str) (statusCode : Int) : Bool :=
  if statusCode == 301 || statusCode == 302 || statusCode == 307 ||
      statusCode == 308 then true
  else if endsSlash url then true
  else
    let path := trimSlashR url
    match lastIndexOf path '/' with
    | some idx => !((path.drop (idx + 1)).contains '.')
    | none => false

/-- `Printer.PrintResult`'s display decision: with no configured status codes
(`showAll`) everything except 404 is shown, otherwise only configured codes. -/
def shouldPrint (statusCodes : List Int) (statusCode : Int) : Bool :=
  if statusCodes.isEmpty then !(statusCode == 404)
  else statusCodes.contains statusCode

/-- `Engine.writeUniqueURL`: normalize by trimming trailing slashes, skip when
the normalized URL was already recorded, otherwise record it and emit the
original URL to `writer.WriteURL`.  Returns the new dedup set and the
emitted URL, when any. -/
def writeUniqueURL (outputURLs : List Str) (url : Str) :
    List Str × Option Str :=
  let norm := trimSlashR url
  if outputURLs.contains norm then (outputURLs, none)
  else (norm :: outputURLs, some url)

/-- `fmt.Sprintf("%d:%s", depth, url)`: the registry entry for a discovered
directory. -/
def encodeDir (depth : Nat) (url : Str) : Str :=
  (Nat.repr depth).toList ++ ':' :: url

/-- `Engine.getDirectoriesAtDepth`: keep entries whose `"depth:"` tag matches
and strip the tag. -/
def getDirectoriesAtDepth (dirs : List Str) (depth : Nat) : List Str :=
  (dirs.filter (fun d => (((Nat.repr depth).toList ++ [':']).isPrefixOf d))).map
    (fun d => dropPre ((Nat.repr depth).toList ++ [':']) d)

example : trimSlashR "https://h/a//".toList = "https://h/a".toList := by decide
example : isDirectory "https://h/a".toList 200 = true := by decide
example : isDirectory "https://h/a.php".toList 200 = false := by decide
example : isDirectory "https://h/a.php".toList 301 = true := by decide
example : isSoft404 [⟨"x".toList, 512⟩] "y".toList 512 = true := by decide
example : isSoft404 [⟨"x".toList, 0⟩] [] 0 = false := by decide
example : getDirectoriesAtDepth [encodeDir 0 "https://h/a".toList, encodeDir 1 "https://h/b".toList] 1
    = ["https://h/b".toList] := by decide

/-- The scanner configuration fields the result handlers and URL builders
read (`scanner.Config` plus the printer's status filter). -/
structure EngineConfig where
  words : List Str
  extensions : List Str
  recursive : Bool
  maxDepth : Nat
  addSlash : Bool
  filterCodes : List Int
  excludeSizes : List Int
  statusCodes : List Int
deriving Repr

/-- The mutable engine state touched by the result handlers: the
`soft404Sizes` count map, the output dedup set `outputURLs`, the log of URLs
emitted through `writer.WriteURL`, and the encoded `directories` registry. -/
structure HState where
  counts : Int → Nat
  outputURLs : List Str
  written : List Str
  directories : List Str

/-- Engine state at construction: everything empty, all counts zero. -/
def initState : HState := ⟨fun _ => 0, [], [], []⟩

/-- What one pass of a result handler did with a result: which filter step
dropped it, whether it reached the printer (`forwarded`), how it was
classified, whether the printer accepted it, whether the URL was written to
the output file, and whether a directory was registered. -/
structure DirAction where
  errored : Bool
  droppedFilter : Bool
  droppedSoft : Bool
  droppedDyn : Bool
  forwarded : Bool
  classifiedDir : Bool
  printOk : Bool
  wrote : Bool
  registered : Bool
deriving DecidableEq, Repr

/-- The result survived every classifier filter step (a)–(f). -/
def survives (a : DirAction) : Bool :=
  !a.errored && !a.droppedFilter && !a.droppedSoft && !a.droppedDyn

/-- One iteration of `Engine.handleDirectoryResults` on a single result:
the filter chain (error, 404/user codes, 5xx, user sizes, baseline soft-404,
dynamic soft-404), then printing, output-file writing and directory
registration. -/
def handleDirectoryResult (cfg : EngineConfig) (bs : List Baseline)
    (writerEnabled : Bool) (st : HState) (r : Result) (depth : Nat) :
    HState × DirAction :=
  if r.isError then
    (st, ⟨true, false, false, false, false, false, false, false, false⟩)
  else if r.statusCode == 404 || cfg.filterCodes.contains r.statusCode then
    (st, ⟨false, true, false, false, false, false, false, false, false⟩)
  else if 500 ≤ r.statusCode then
    (st, ⟨false, true, false, false, false, false, false, false, false⟩)
  else if cfg.excludeSizes.contains r.size then
    (st, ⟨false, true, false, false, false, false, false, false, false⟩)
  else if isSoft404 bs r.bodyHash r.size then
    (st, ⟨false, false, true, false, false, false, false, false, false⟩)
  else
    let t := trackSoft404Size st.counts r.size r.statusCode
    let st1 : HState := ⟨t.2, st.outputURLs, st.written, st.directories⟩
    if t.1 then
      (st1, ⟨false, false, false, true, false, false, false, false, false⟩)
    else
      let isDir := isDirectory r.url r.statusCode
      if shouldPrint cfg.statusCodes r.statusCode then
        let w :=
          if isReliableResult r.statusCode && writerEnabled then
            writeUniqueURL st1.outputURLs r.url
          else (st1.outputURLs, none)
        let reg : Bool := isDir &&
          (r.statusCode == 200 || r.statusCode == 301 || r.statusCode == 302 ||
           r.statusCode == 307 || r.statusCode == 308)
        let st2 : HState :=
          ⟨st1.counts, w.1, st1.written ++ w.2.toList,
           if reg then st1.directories ++ [encodeDir depth (trimSlashR r.url)]
           else st1.directories⟩
        (st2, ⟨false, false, false, false, true, isDir, true, w.2.isSome, reg⟩)
      else
        (st1, ⟨false, false, false, false, true, isDir, false, false, false⟩)

/-- One iteration of `Engine.handleFileResults` on a single result: the same
filter chain, but `isDir` is hard-coded `false`, the print depth is 0 and no
directory is ever registered. -/
def handleFileResult (cfg : EngineConfig) (bs : List Baseline)
    (writerEnabled : Bool) (st : HState) (r : Result) :
    HState × DirAction :=
  if r.isError then
    (st, ⟨true, false, false, false, false, false, false, false, false⟩)
  else if r.statusCode == 404 || cfg.filterCodes.contains r.statusCode then
    (st, ⟨false, true, false, false, false, false, false, false, false⟩)
  else if 500 ≤ r.statusCode then
    (st, ⟨false, true, false, false, false, false, false, false, false⟩)
  else if cfg.excludeSizes.contains r.size then
    (st, ⟨false, true, false, false, false, false, false, false, false⟩)
  else if isSoft404 bs r.bodyHash r.size then
    (st, ⟨false, false, true, false, false, false, false, false, false⟩)
  else
    let t := trackSoft404Size st.counts r.size r.statusCode
    let st1 : HState := ⟨t.2, st.outputURLs, st.written, st.directories⟩
    if t.1 then
      (st1, ⟨false, false, false, true, false, false, false, false, false⟩)
    else
      if shouldPrint cfg.statusCodes r.statusCode then
        let w :=
          if isReliableResult r.statusCode && writerEnabled then
            writeUniqueURL st1.outputURLs r.url
          else (st1.outputURLs, none)
        let st2 : HState := ⟨st1.counts, w.1, st1.written ++ w.2.toList, st1.directories⟩
        (st2, ⟨false, false, false, false, true, false, true, w.2.isSome, false⟩)
      else
        (st1, ⟨false, false, false, false, true, false, false, false, false⟩)

/-- A result arriving at one of the two result handlers: from a
directory-discovery phase at some depth, or from the file-discovery phase. -/
inductive Ev where
  | dirRes (depth : Nat) (r : Result)
  | fileRes (r : Result)
deriving DecidableEq, Repr

/-- The result carried by an event. -/
def Ev.result : Ev → Result
  | .dirRes _ r => r
  | .fileRes r => r

/-- Dispatch one event to its handler. -/
def stepEv (cfg : EngineConfig) (bs : List Baseline) (we : Bool)
    (st : HState) (e : Ev) : HState × DirAction :=
  match e with
  | .dirRes depth r => handleDirectoryResult cfg bs we st r depth
  | .fileRes r => handleFileResult cfg bs we st r

/-- Process a sequence of results through the handlers, threading the engine
state and logging each result's action. -/
def runEvs (cfg : EngineConfig) (bs : List Baseline) (we : Bool)
    (st : HState) : List Ev → HState × List (Ev × DirAction)
  | [] => (st, [])
  | e :: es =>
    let p := stepEv cfg bs we st e
    let rest := runEvs cfg bs we p.1 es
    (rest.1, (e, p.2) :: rest.2)

/-- The word preprocessing at the top of `Engine.buildDirectoryURLs`:
trim whitespace, skip empty words and comments, strip one leading slash,
skip words that contain a dot (they look like files). -/
def dirWord (w : Str) : Option Str :=
  let w1 := trimSp w
  if w1.isEmpty || (['#'].isPrefixOf w1) then none
  else
    let w2 := dropPre ['/'] w1
    if w2.contains '.' then none else some w2

/-- The word preprocessing in `Engine.buildFileURLs`: trim whitespace, skip
empty words and comments, strip one leading slash (no dot filter). -/
def fileWord (w : Str) : Option Str :=
  let w1 := trimSp w
  if w1.isEmpty || (['#'].isPrefixOf w1) then none
  else some (dropPre ['/'] w1)

/-- `Engine.buildDirectoryURLs`: for each usable word build
`basePath + "/" + word`, skip it when the visited set already holds it,
otherwise record it and emit it; with `addSlash` also try the variant with a
trailing slash under the same check-then-insert discipline.  Returns the new
visited set and the job URLs in order. -/
def buildDirectoryURLs (addSlash : Bool) (basePath : Str)
    (visited : List Str) : List Str → List Str × List Str
  | [] => (visited, [])
  | w :: ws =>
    match dirWord w with
    | none => buildDirectoryURLs addSlash basePath visited ws
    | some word =>
      let fullURL := basePath ++ '/' :: word
      if visited.contains fullURL then
        buildDirectoryURLs addSlash basePath visited ws
      else
        if addSlash then
          let slashURL := fullURL ++ ['/']
          if (fullURL :: visited).contains slashURL then
            let rest := buildDirectoryURLs addSlash basePath (fullURL :: visited) ws
            (rest.1, fullURL :: rest.2)
          else
            let rest :=
              buildDirectoryURLs addSlash basePath (slashURL :: fullURL :: visited) ws
            (rest.1, fullURL :: slashURL :: rest.2)
        else
          let rest := buildDirectoryURLs addSlash basePath (fullURL :: visited) ws
          (rest.1, fullURL :: rest.2)

/-- The inner extension loop of `Engine.buildFileURLs`: for each extension
build `basePath + "/" + word + "." + ext` under the visited
check-then-insert. -/
def buildExtURLs (basePath word : Str) (visited : List Str) :
    List Str → List Str × List Str
  | [] => (visited, [])
  | ext :: exts =>
    let extURL := basePath ++ '/' :: (word ++ '.' :: ext)
    if visited.contains extURL then buildExtURLs basePath word visited exts
    else
      let rest := buildExtURLs basePath word (extURL :: visited) exts
      (rest.1, extURL :: rest.2)

/-- `Engine.buildFileURLs`: the word loop around the extension loop. -/
def buildFileURLs (exts : List Str) (basePath : Str) (visited : List Str) :
    List Str → List Str × List Str
  | [] => (visited, [])
  | w :: ws =>
    match fileWord w with
    | none => buildFileURLs exts basePath visited ws
    | some word =>
      let inner := buildExtURLs basePath word visited exts
      let rest := buildFileURLs exts basePath inner.1 ws
      (rest.1, inner.2 ++ rest.2)

/-- One invocation of a phase's URL builder, as performed by
`scanDirectoriesFast` (which first trims trailing slashes off the base path)
or `scanFiles`. -/
inductive BuildCall where
  | dir (basePath : Str)
  | file (basePath : Str)

/-- Run a sequence of builder invocations — phase 1, every phase-2 directory
scan, and every phase-3 file scan — threading the one shared visited set, and
collect every job URL handed to the pipeline, in order. -/
def runBuilds (words exts : List Str) (addSlash : Bool)
    (visited : List Str) : List BuildCall → List Str × List Str
  | [] => (visited, [])
  | c :: cs =>
    let p :=
      match c with
      | .dir bp => buildDirectoryURLs addSlash (trimSlashR bp) visited words
      | .file bp => buildFileURLs exts (trimSlashR bp) visited words
    let rest := runBuilds words exts addSlash p.1 cs
    (rest.1, p.2 ++ rest.2)

/-- Outcome of one calibration probe (`httpclient.RequestWithBody` on a
synthetic nonexistent path). -/
structure ProbeOutcome where
  isError : Bool
  statusCode : Int
  bodyHash : Str
  size : Int
deriving DecidableEq, Repr

/-- `Engine.calibrateMultiple`: record a `{hash, size}` baseline for every
probe that returned without a transport error and with a nonzero status;
failed probes are skipped and nothing aborts. -/
def calibrateMultiple : List ProbeOutcome → List Baseline
  | [] => []
  | p :: ps =>
    if p.isError = false ∧ p.statusCode ≠ 0 then
      ⟨p.bodyHash, p.size⟩ :: calibrateMultiple ps
    else calibrateMultiple ps

/-- The phase-2 loop of `Engine.Run` from a given depth with the given fuel
(remaining depth levels up to `maxDepth`): read the registry entries tagged
`depth-1`; stop when there are none; otherwise scan each such directory at
`depth` (the abstract `discover` oracle yields the directory URLs that scan
registers) and continue one level deeper.  Returns the final registry and the
trace of `(directory, depth)` directory-discovery scans. -/
def phase2Aux (discover : Str → Nat → List Str) :
    Nat → List Str → Nat → List Str × List (Str × Nat)
  | 0, registry, _ => (registry, [])
  | fuel + 1, registry, depth =>
    let dirs := getDirectoriesAtDepth registry (depth - 1)
    if dirs.isEmpty then (registry, [])
    else
      let newRegs := dirs.flatMap (fun d => (discover d depth).map (encodeDir depth))
      let rest := phase2Aux discover fuel (registry ++ newRegs) (depth + 1)
      (rest.1, dirs.map (fun d => (d, depth)) ++ rest.2)

/-- The directory-discovery part of `Engine.Run`: the phase-1 scan of the base
URL at depth 0 (the oracle's discoveries are registered with tag `0`), then —
when recursion is on and something was registered — the phase-2 loop over
depths `1..maxDepth`.  Returns the final registry and the trace of every
directory-discovery scan performed. -/
def runScanTrace (discover : Str → Nat → List Str) (base : Str)
    (recursive : Bool) (maxDepth : Nat) : List Str × List (Str × Nat) :=
  let regs0 := (discover base 0).map (encodeDir 0)
  if recursive && !regs0.isEmpty then
    let rest := phase2Aux discover maxDepth regs0 1
    (rest.1, (base, 0) :: rest.2)
  else (regs0, [(base, 0)])

example :
    (buildDirectoryURLs true "https://h".toList []
      ["admin".toList, "admin".toList, "a.php".toList]).2
    = ["https://h/admin".toList, "https://h/admin/".toList] := by decide

example :
    (buildFileURLs ["php".toList] "https://h".toList []
      ["admin".toList, "# c".toList]).2
    = ["https://h/admin.php".toList] := by decide

example :
    (runScanTrace (fun _ d => if d = 0 then ["https://h/api".toList] else [])
      "https://h".toList true 2).2
    = [("https://h".toList, 0), ("https://h/api".toList, 1)] := by decide

/-- The baseline check in `isSoft404`, as a membership statement: a drop needs
a baseline whose hash equals the (non-empty) response hash, or whose size is
positive and equals the response size. -/
lemma isSoft404_iff (bs : List Baseline) (h : Str) (s : Int) :
    isSoft404 bs h s = true ↔
      ∃ b ∈ bs, (h ≠ [] ∧ b.hash = h) ∨ (0 < b.size ∧ s = b.size) := by
  simp only [isSoft404, List.any_eq_true, baselineHit, Bool.or_eq_true,
    Bool.and_eq_true, beq_iff_eq, decide_eq_true_eq, Bool.not_eq_true',
    List.isEmpty_eq_false_iff_exists_mem]
  constructor
  · rintro ⟨b, hb, hcase⟩
    refine ⟨b, hb, ?_⟩
    rcases hcase with ⟨⟨x, hx⟩, hh⟩ | ⟨hs, he⟩
    · exact Or.inl ⟨fun hnil => by simp [hnil] at hx, hh⟩
    · exact Or.inr ⟨hs, he⟩
  · rintro ⟨b, hb, hcase⟩
    refine ⟨b, hb, ?_⟩
    rcases hcase with ⟨hne, hh⟩ | ⟨hs, he⟩
    · rcases h with _ | ⟨c, t⟩
      · exact absurd rfl hne
      · exact Or.inl ⟨⟨c, by simp⟩, hh⟩
    · exact Or.inr ⟨hs, he⟩

/-- C9: every calibration probe that fails (transport error, or the zero
status a failed request leaves behind) is omitted from the baseline set;
when all probes fail the baseline set is empty and the baseline soft-404
check drops nothing for the rest of the scan. -/
theorem c9_calibration_failures :
    (∀ probes : List ProbeOutcome,
      calibrateMultiple probes =
        (probes.filter (fun p => !p.isError && p.statusCode != 0)).map
          (fun p => ⟨p.bodyHash, p.size⟩)) ∧
    (∀ probes : List ProbeOutcome,
      (∀ p ∈ probes, p.isError = true ∨ p.statusCode = 0) →
      calibrateMultiple probes = []) ∧
    (∀ (h : Str) (s : Int), isSoft404 [] h s = false) := by
  refine ⟨?_, ?_, ?_⟩
  · intro probes
    induction probes with
    | nil => rfl
    | cons p ps ih =>
      by_cases hp : p.isError = false ∧ p.statusCode ≠ 0
      · simp [calibrateMultiple, hp, List.filter_cons, hp.1, hp.2, ih]
      · rcases not_and_or.mp hp with hh | hh
        · have : p.isError = true := by
            cases he : p.isError
            · exact absurd he hh
            · rfl
          simp [calibrateMultiple, hp, List.filter_cons, this, ih]
        · have : p.statusCode = 0 := not_not.mp hh
          simp [calibrateMultiple, hp, List.filter_cons, this, ih]
  · intro probes hall
    induction probes with
    | nil => rfl
    | cons p ps ih =>
      have hp : ¬(p.isError = false ∧ p.statusCode ≠ 0) := by
        rcases hall p (by simp) with h | h
        · intro hc; rw [hc.1] at h; cases h
        · intro hc; exact hc.2 h
      simp only [calibrateMultiple, if_neg hp]
      exact ih (fun q hq => hall q (by simp [hq]))
  · intro h s; rfl

/-- C9 witness: three probes, all failing (two transport errors, one zero
status), leave the baseline set empty, and the empty baseline set never
drops the sample 512-byte response. -/
theorem c9_witness :
    calibrateMultiple [⟨true, 0, [], 0⟩, ⟨true, 200, "x".toList, 7⟩, ⟨false, 0, [], 0⟩] = [] ∧
    isSoft404 [] "x".toList 512 = false := by
  refine ⟨c9_calibration_failures.2.1 _ ?_, c9_calibration_failures.2.2 _ _⟩
  intro p hp
  fin_cases hp <;> simp

/-- C10: a result whose BodyHash is empty is never dropped by a hash match
(any drop exhibits a positive-size baseline of the same size); a baseline
recorded with size 0 never produces a size-only drop (with all-zero baseline
sizes any drop exhibits a matching non-empty hash); in particular a
zero-length response with no body hash is never suppressed by a zero-length
calibration sample. -/
theorem c10_empty_hash_zero_size_guards :
    (∀ (bs : List Baseline) (s : Int),
      isSoft404 bs [] s = true → ∃ b ∈ bs, 0 < b.size ∧ s = b.size) ∧
    (∀ (bs : List Baseline) (h : Str) (s : Int),
      (∀ b ∈ bs, b.size = 0) →
      isSoft404 bs h s = true → ∃ b ∈ bs, h ≠ [] ∧ b.hash = h) ∧
    (∀ bs : List Baseline, (∀ b ∈ bs, b.size = 0) →
      ∀ s : Int, isSoft404 bs [] s = false) := by
  refine ⟨?_, ?_, ?_⟩
  · intro bs s hdrop
    rcases (isSoft404_iff bs [] s).mp hdrop with ⟨b, hb, hcase⟩
    rcases hcase with ⟨hne, _⟩ | ⟨hs, he⟩
    · exact absurd rfl hne
    · exact ⟨b, hb, hs, he⟩
  · intro bs h s hz hdrop
    rcases (isSoft404_iff bs h s).mp hdrop with ⟨b, hb, hcase⟩
    rcases hcase with ⟨hne, hh⟩ | ⟨hs, _⟩
    · exact ⟨b, hb, hne, hh⟩
    · rw [hz b hb] at hs; cases hs
  · intro bs hz s
    cases hdrop : isSoft404 bs [] s
    · rfl
    · rcases (isSoft404_iff bs [] s).mp hdrop with ⟨b, hb, hcase⟩
      rcases hcase with ⟨hne, _⟩ | ⟨hs, _⟩
      · exact absurd rfl hne
      · rw [hz b hb] at hs; cases hs

/-- C10 witness: a single zero-size baseline with a real hash suppresses
neither a hashless zero-length response (size-only match is disabled for
size 0) nor any other hashless response. -/
theorem c10_witness :
    (∀ b ∈ [(⟨"d41d8cd9".toList, 0⟩ : Baseline)], b.size = 0) ∧
    isSoft404 [⟨"d41d8cd9".toList, 0⟩] [] 0 = false :=
  ⟨by decide, c10_empty_hash_zero_size_guards.2.2 _ (by decide) 0⟩

/-- Modelled from the spec: the claim's unguarded baseline rule, "BodyHash
equals any baseline hash, OR Size exactly equals any baseline size", written
exactly as the spec words it, for comparison with the source's `isSoft404`. -/
def specSoft404 (bs : List Baseline) (h : Str) (s : Int) : Bool :=
  bs.any (fun b => b.hash == h || b.size == s)

/-- A configuration with no user filters, recursion on, depth 3. -/
def cfgD : EngineConfig := ⟨[], [], true, 3, false, [], [], []⟩

/-- C1 (amended): a result that passes the earlier filter steps is dropped as
a baseline soft-404 exactly when some baseline has the same non-empty body
hash, or some baseline has a positive size equal to the result's size. -/
theorem c1_baseline_soft404_guarded :
    ∀ (cfg : EngineConfig) (bs : List Baseline) (we : Bool) (st : HState)
      (r : Result) (depth : Nat),
    r.isError = false → r.statusCode ≠ 404 →
    cfg.filterCodes.contains r.statusCode = false →
    r.statusCode < 500 →
    cfg.excludeSizes.contains r.size = false →
    (((handleDirectoryResult cfg bs we st r depth).2).droppedSoft = true ↔
      ∃ b ∈ bs, (r.bodyHash ≠ [] ∧ b.hash = r.bodyHash) ∨
        (0 < b.size ∧ r.size = b.size)) := by
  intro cfg bs we st r depth he h404 hfc h500 hes
  have h3 : ¬(500 ≤ r.statusCode) := not_le.mpr h500
  have hfc' : r.statusCode ∉ cfg.filterCodes := by simpa using hfc
  have hes' : r.size ∉ cfg.excludeSizes := by simpa using hes
  rw [← isSoft404_iff]
  by_cases hsoft : isSoft404 bs r.bodyHash r.size = true
  · simp [handleDirectoryResult, he, h404, hfc', h3, hes', hsoft]
  · have hs' : isSoft404 bs r.bodyHash r.size = false :=
      Bool.not_eq_true _ ▸ Bool.of_not_eq_true hsoft
    simp only [handleDirectoryResult, he, Bool.false_eq_true, if_false]
    simp [h404, hfc', h3, hes', hs']
    split <;> first
      | rfl
      | (split <;> rfl)

/-- C1 counterexample: with a calibration baseline of size 0 and a surviving
status-200 zero-length response whose hash differs, the spec's unguarded rule
says "drop" (size equality), but the engine does not drop the result — it is
not a baseline soft-404 and survives every filter step. -/
theorem c1_counterexample :
    specSoft404 [⟨"dead".toList, 0⟩] "x".toList 0 = true ∧
    ((handleDirectoryResult cfgD [⟨"dead".toList, 0⟩] true initState
      ⟨"https://h/a".toList, 200, 0, "x".toList, 0, false⟩ 0).2).droppedSoft = false ∧
    survives ((handleDirectoryResult cfgD [⟨"dead".toList, 0⟩] true initState
      ⟨"https://h/a".toList, 200, 0, "x".toList, 0, false⟩ 0).2) = true := by
  refine ⟨by decide, by decide, by decide⟩

/-- C1 witness: the spec's own scenario — baseline size 512, a status-200
probe of `/secret` with size 512 — is dropped as a soft-404. -/
theorem c1_witness :
    ((handleDirectoryResult cfgD [⟨"cafe".toList, 512⟩] true initState
      ⟨"https://h/secret".toList, 200, 512, "zz".toList, 0, false⟩ 0).2).droppedSoft = true := by
  have h := c1_baseline_soft404_guarded cfgD [⟨"cafe".toList, 512⟩] true initState
    ⟨"https://h/secret".toList, 200, 512, "zz".toList, 0, false⟩ 0
    (by decide) (by decide) (by decide) (by decide) (by decide)
  exact h.mpr ⟨⟨"cafe".toList, 512⟩, by decide, Or.inr (by decide)⟩

/-- A string with no trailing slash is unchanged by `strings.TrimRight(s, "/")`. -/
lemma trimSlashR_of_not_endsSlash (s : Str) (h : endsSlash s = false) :
    trimSlashR s = s := by
  unfold endsSlash at h
  cases hr : s.reverse with
  | nil =>
    have : s = [] := by simpa using congrArg List.reverse hr
    simp [this, trimSlashR]
  | cons c t =>
    rw [hr] at h
    simp only at h
    unfold trimSlashR
    rw [hr, List.dropWhile_cons]
    simp only [h, Bool.false_eq_true, if_false]
    exact (List.reverse_eq_iff).mpr hr.symm

/-- `lastIndexOf` returns `none` exactly when the character is absent
(Go's `strings.LastIndex == -1`). -/
lemma lastIndexOf_eq_none_iff (s : Str) (c : Char) :
    lastIndexOf s c = none ↔ c ∉ s := by
  induction s with
  | nil => simp [lastIndexOf]
  | cons a rest ih =>
    cases h : lastIndexOf rest c with
    | some i =>
      have hrest : c ∈ rest := by
        by_contra hc
        rw [← ih] at hc
        rw [hc] at h
        cases h
      simp [lastIndexOf, h, hrest]
    | none =>
      by_cases hac : a = c
      · simp [lastIndexOf, h, hac]
      · simp [lastIndexOf, h, hac, ih.mp h, Ne.symm hac]

/-- Modelled from the spec: "the final path segment (after the last `/`)" of
the probed URL. -/
def lastSeg (url : Str) : Str :=
  match lastIndexOf url '/' with
  | some i => url.drop (i + 1)
  | none => url

/-- Modelled from the spec: "a result is a directory if any of: status is a
3xx redirect (301/302/307/308); the probed URL ends with a trailing slash;
OR the final path segment (after the last `/`) contains no `.` character". -/
def specIsDirectory (url : Str) (status : Int) : Bool :=
  (status == 301 || status == 302 || status == 307 || status == 308) ||
  endsSlash url ||
  !((lastSeg url).contains '.')

/-- C8: for every probed URL (every engine-built URL contains a slash), the
source's `isDirectory` agrees with the spec's three-way rule, and every
result of the extension-brute-force file phase is classified as a file. -/
theorem c8_directory_classification :
    (∀ (url : Str) (status : Int), url.contains '/' = true →
      isDirectory url status = specIsDirectory url status) ∧
    (∀ (cfg : EngineConfig) (bs : List Baseline) (we : Bool) (st : HState)
      (r : Result), ((handleFileResult cfg bs we st r).2).classifiedDir = false) := by
  constructor
  · intro url status hurl
    by_cases hred : (status == 301 || status == 302 || status == 307 ||
        status == 308) = true
    · simp only [isDirectory, specIsDirectory, hred, if_true, Bool.true_or]
    · have hred' : (status == 301 || status == 302 || status == 307 ||
          status == 308) = false := Bool.not_eq_true _ ▸ Bool.of_not_eq_true hred
      by_cases hsl : endsSlash url = true
      · simp [isDirectory, specIsDirectory, hred', hsl]
      · have hsl' : endsSlash url = false :=
          Bool.not_eq_true _ ▸ Bool.of_not_eq_true hsl
        have htrim : trimSlashR url = url := trimSlashR_of_not_endsSlash _ hsl'
        have hmem : '/' ∈ url := by simpa using hurl
        cases hi : lastIndexOf url '/' with
        | none => exact absurd ((lastIndexOf_eq_none_iff url '/').mp hi) (by simpa)
        | some i =>
          simp [isDirectory, specIsDirectory, lastSeg, hred', hsl', htrim, hi]
  · intro cfg bs we st r
    simp only [handleFileResult]
    repeat' split
    all_goals rfl

/-- C8 witness: `https://h/admin` at status 200 (dot-free final segment) is a
directory under both the source rule and the spec rule. -/
theorem c8_witness :
    ("https://h/admin".toList.contains '/' = true) ∧
    isDirectory "https://h/admin".toList 200 =
      specIsDirectory "https://h/admin".toList 200 :=
  ⟨by decide, c8_directory_classification.1 _ 200 (by decide)⟩

/-- Counts tracked by `trackSoft404Size` never decrease. -/
lemma track_mono (counts : Int → Nat) (size status S : Int) :
    counts S ≤ (trackSoft404Size counts size status).2 S := by
  unfold trackSoft404Size
  split
  · exact le_refl _
  split
  · by_cases h : S = size
    · subst h; simp
    · simp [h]
  · exact le_refl _

/-- `trackSoft404Size` only ever increments counts of sizes below 100. -/
lemma track_inv (counts : Int → Nat) (size status S : Int)
    (hinv : ∀ T, 0 < counts T → T < 100)
    (h : 0 < (trackSoft404Size counts size status).2 S) : S < 100 := by
  unfold trackSoft404Size at h
  split at h
  · exact hinv S h
  split at h
  · rename_i hc
    by_cases hS : S = size
    · subst hS; exact hc
    · exact hinv S (by simpa [hS] using h)
  · exact hinv S h

/-- Once a tracked size's count is above 10, the next 401/403 event of that
size (necessarily below 100 bytes) fires the dynamic drop. -/
lemma track_fires (counts : Int → Nat) (S status : Int)
    (hst : status = 401 ∨ status = 403) (hbig : 10 < counts S) (hlt : S < 100) :
    (trackSoft404Size counts S status).1 = true := by
  unfold trackSoft404Size
  have hcond : (status != 403 && status != 401) = false := by
    rcases hst with h | h <;> simp [h]
  simp [hcond, hlt]
  omega

/-- A result handler never decreases a tracked count. -/
lemma step_counts_mono (cfg : EngineConfig) (bs : List Baseline) (we : Bool)
    (st : HState) (e : Ev) (S : Int) :
    st.counts S ≤ ((stepEv cfg bs we st e).1).counts S := by
  cases e with
  | dirRes d r =>
    simp only [stepEv]
    unfold handleDirectoryResult
    dsimp only
    repeat' split
    all_goals first
      | exact le_refl _
      | exact track_mono st.counts r.size r.statusCode S
  | fileRes r =>
    simp only [stepEv]
    unfold handleFileResult
    dsimp only
    repeat' split
    all_goals first
      | exact le_refl _
      | exact track_mono st.counts r.size r.statusCode S

/-- A result handler preserves the "positive counts only below 100 bytes"
invariant. -/
lemma step_counts_inv (cfg : EngineConfig) (bs : List Baseline) (we : Bool)
    (st : HState) (e : Ev) (hinv : ∀ T, 0 < st.counts T → T < 100) :
    ∀ T, 0 < ((stepEv cfg bs we st e).1).counts T → T < 100 := by
  cases e with
  | dirRes d r =>
    simp only [stepEv]
    unfold handleDirectoryResult
    dsimp only
    repeat' split
    all_goals intro T hT
    all_goals first
      | exact hinv T hT
      | exact track_inv st.counts r.size r.statusCode T hinv hT
  | fileRes r =>
    simp only [stepEv]
    unfold handleFileResult
    dsimp only
    repeat' split
    all_goals intro T hT
    all_goals first
      | exact hinv T hT
      | exact track_inv st.counts r.size r.statusCode T hinv hT

/-- With a count above 10 for size `S`, any 401/403 result of size `S` is
dropped by the handler it reaches (its action never reaches the printer). -/
lemma step_drop (cfg : EngineConfig) (bs : List Baseline) (we : Bool)
    (st : HState) (e : Ev) (S : Int)
    (hinv : ∀ T, 0 < st.counts T → T < 100) (hbig : 10 < st.counts S)
    (hst : e.result.statusCode = 401 ∨ e.result.statusCode = 403)
    (hsz : e.result.size = S) :
    ((stepEv cfg bs we st e).2).forwarded = false := by
  have hlt : S < 100 := hinv S (by omega)
  cases e with
  | dirRes d r =>
    simp only [Ev.result] at hst hsz
    have hfire : (trackSoft404Size st.counts r.size r.statusCode).1 = true := by
      rw [hsz]; exact track_fires st.counts S r.statusCode hst hbig hlt
    simp only [stepEv]
    unfold handleDirectoryResult
    split
    · rfl
    split
    · rfl
    split
    · rfl
    split
    · rfl
    split
    · rfl
    dsimp only
    rw [hfire]
    rfl
  | fileRes r =>
    simp only [Ev.result] at hst hsz
    have hfire : (trackSoft404Size st.counts r.size r.statusCode).1 = true := by
      rw [hsz]; exact track_fires st.counts S r.statusCode hst hbig hlt
    simp only [stepEv]
    unfold handleFileResult
    split
    · rfl
    split
    · rfl
    split
    · rfl
    split
    · rfl
    split
    · rfl
    dsimp only
    rw [hfire]
    rfl

/-- Counts never decrease across a whole run of results. -/
lemma runEvs_counts_mono (cfg : EngineConfig) (bs : List Baseline) (we : Bool) :
    ∀ (evs : List Ev) (st : HState) (S : Int),
    st.counts S ≤ ((runEvs cfg bs we st evs).1).counts S := by
  intro evs
  induction evs with
  | nil => intro st S; exact le_refl _
  | cons e es ih =>
    intro st S
    simp only [runEvs]
    exact le_trans (step_counts_mono cfg bs we st e S)
      (ih (stepEv cfg bs we st e).1 S)

/-- The size invariant holds along a whole run of results. -/
lemma runEvs_counts_inv (cfg : EngineConfig) (bs : List Baseline) (we : Bool) :
    ∀ (evs : List Ev) (st : HState),
    (∀ T, 0 < st.counts T → T < 100) →
    ∀ T, 0 < ((runEvs cfg bs we st evs).1).counts T → T < 100 := by
  intro evs
  induction evs with
  | nil => intro st hinv; exact hinv
  | cons e es ih =>
    intro st hinv
    simp only [runEvs]
    exact ih (stepEv cfg bs we st e).1 (step_counts_inv cfg bs we st e hinv)

/-- From a state with count of `S` above 10, every later 401/403 result of
size `S` in a run is dropped. -/
lemma runEvs_drop (cfg : EngineConfig) (bs : List Baseline) (we : Bool) :
    ∀ (evs : List Ev) (st : HState),
    (∀ T, 0 < st.counts T → T < 100) →
    ∀ S : Int, 10 < st.counts S →
    ∀ p ∈ (runEvs cfg bs we st evs).2,
      (p.1.result.statusCode = 401 ∨ p.1.result.statusCode = 403) →
      p.1.result.size = S → p.2.forwarded = false := by
  intro evs
  induction evs with
  | nil => intro st _ S _ p hp; cases hp
  | cons e es ih =>
    intro st hinv S hbig p hp hst hsz
    simp only [runEvs, List.mem_cons] at hp
    rcases hp with hp | hp
    · subst hp
      exact step_drop cfg bs we st e S hinv hbig hst hsz
    · exact ih (stepEv cfg bs we st e).1 (step_counts_inv cfg bs we st e hinv) S
        (lt_of_lt_of_le hbig (step_counts_mono cfg bs we st e S)) p hp hst hsz

/-- C4: the dynamic soft-404 tracker increments the seen-count of every
401/403 result below 100 bytes it is fed; counts never decrease over a run
(never reset); and once a size's count exceeds 10, every subsequent 401/403
result of that size in the run is dropped. -/
theorem c4_dynamic_threshold_monotone :
    (∀ (counts : Int → Nat) (size status : Int),
      (status = 401 ∨ status = 403) → size < 100 →
      (trackSoft404Size counts size status).2 size = counts size + 1) ∧
    (∀ (cfg : EngineConfig) (bs : List Baseline) (we : Bool) (st : HState)
      (evs : List Ev) (S : Int),
      st.counts S ≤ ((runEvs cfg bs we st evs).1).counts S) ∧
    (∀ (cfg : EngineConfig) (bs : List Baseline) (we : Bool)
      (evs1 evs2 : List Ev) (S : Int),
      10 < ((runEvs cfg bs we initState evs1).1).counts S →
      ∀ p ∈ (runEvs cfg bs we ((runEvs cfg bs we initState evs1).1) evs2).2,
        (p.1.result.statusCode = 401 ∨ p.1.result.statusCode = 403) →
        p.1.result.size = S → p.2.forwarded = false) := by
  refine ⟨?_, ?_, ?_⟩
  · intro counts size status hst hlt
    have hcond : (status != 403 && status != 401) = false := by
      rcases hst with h | h <;> simp [h]
    simp [trackSoft404Size, hcond, hlt]
  · intro cfg bs we st evs S
    exact runEvs_counts_mono cfg bs we evs st S
  · intro cfg bs we evs1 evs2 S hbig p hp hst hsz
    have hinv : ∀ T, 0 < ((runEvs cfg bs we initState evs1).1).counts T → T < 100 :=
      runEvs_counts_inv cfg bs we evs1 initState (fun T hT => absurd hT (by simp [initState]))
    exact runEvs_drop cfg bs we evs2 _ hinv S hbig p hp hst hsz

/-- A 401 result of size 50, as produced by directory discovery. -/
def r401 : Result := ⟨"https://h/p".toList, 401, 50, [], 0, false⟩

/-- Eleven such results: enough to push size 50's count over the threshold. -/
def evs11 : List Ev := List.replicate 11 (Ev.dirRes 0 r401)

/-- C4 witness: after eleven 401/size-50 results the count of size 50 exceeds
10, and the next such result is dropped by the dynamic tracker. -/
theorem c4_witness :
    ((Ev.dirRes 0 r401,
      (⟨false, false, false, true, false, false, false, false, false⟩ : DirAction)) :
      Ev × DirAction).2.forwarded = false :=
  c4_dynamic_threshold_monotone.2.2 cfgD [] true evs11 [Ev.dirRes 0 r401] 50
    (by decide)
    (Ev.dirRes 0 r401, ⟨false, false, false, true, false, false, false, false, false⟩)
    (by decide) (Or.inl (by decide)) (by decide)

/-- The output-dedup invariant: the URLs emitted so far have pairwise
distinct slash-normalized forms, and every emitted URL's normalized form is
recorded in the `outputURLs` dedup set. -/
def Inv7 (st : HState) : Prop :=
  ((st.written.map trimSlashR).Nodup) ∧
  ∀ u ∈ st.written, trimSlashR u ∈ st.outputURLs

/-- `writeUniqueURL` preserves the output-dedup invariant: it emits the URL
only when its normalized form is fresh, and records it at the same time. -/
lemma writeUnique_inv (outs written : List Str) (url : Str)
    (hn : (written.map trimSlashR).Nodup)
    (hm : ∀ u ∈ written, trimSlashR u ∈ outs) :
    (((written ++ (writeUniqueURL outs url).2.toList).map trimSlashR).Nodup) ∧
    ∀ u ∈ written ++ (writeUniqueURL outs url).2.toList,
      trimSlashR u ∈ (writeUniqueURL outs url).1 := by
  unfold writeUniqueURL
  dsimp only
  split
  · simpa using ⟨hn, hm⟩
  · rename_i hc
    have hnot : trimSlashR url ∉ outs := by simpa using hc
    constructor
    · rw [List.map_append]
      simp only [Option.toList_some, List.map_cons, List.map_nil]
      refine List.Nodup.append hn (List.nodup_singleton _) ?_
      intro a ha hb
      simp only [List.mem_singleton] at hb
      subst hb
      rcases List.mem_map.mp ha with ⟨u, hu, hequ⟩
      exact hnot (hequ ▸ hm u hu)
    · intro u hu
      rcases List.mem_append.mp hu with hu | hu
      · exact List.mem_cons_of_mem _ (hm u hu)
      · simp only [Option.toList_some, List.mem_singleton] at hu
        subst hu
        exact List.mem_cons_self _ _

/-- Each result handler preserves the output-dedup invariant. -/
lemma step_inv7 (cfg : EngineConfig) (bs : List Baseline) (we : Bool)
    (st : HState) (e : Ev) (h : Inv7 st) : Inv7 ((stepEv cfg bs we st e).1) := by
  cases e with
  | dirRes d r =>
    simp only [stepEv]
    unfold handleDirectoryResult
    dsimp only
    repeat' split
    all_goals first
      | exact h
      | (simpa [Inv7] using h)
      | exact writeUnique_inv st.outputURLs st.written r.url h.1 h.2
  | fileRes r =>
    simp only [stepEv]
    unfold handleFileResult
    dsimp only
    repeat' split
    all_goals first
      | exact h
      | (simpa [Inv7] using h)
      | exact writeUnique_inv st.outputURLs st.written r.url h.1 h.2

/-- The output-dedup invariant holds along a whole run of results. -/
lemma runEvs_inv7 (cfg : EngineConfig) (bs : List Baseline) (we : Bool) :
    ∀ (evs : List Ev) (st : HState), Inv7 st →
    Inv7 ((runEvs cfg bs we st evs).1) := by
  intro evs
  induction evs with
  | nil => intro st h; exact h
  | cons e es ih =>
    intro st h
    simp only [runEvs]
    exact ih (stepEv cfg bs we st e).1 (step_inv7 cfg bs we st e h)

/-- C7: over any run of results from a fresh engine, the URLs handed to the
output writer's `WriteURL` have pairwise distinct slash-normalized forms —
each normalized URL is written at most once. -/
theorem c7_output_dedup :
    ∀ (cfg : EngineConfig) (bs : List Baseline) (we : Bool) (evs : List Ev),
    ((((runEvs cfg bs we initState evs).1).written.map trimSlashR).Nodup) :=
  fun cfg bs we evs =>
    (runEvs_inv7 cfg bs we evs initState ⟨by simp [initState], by simp [initState]⟩).1

/-- A result that survives every filter step of `handleDirectoryResults`
passed each individual guard. -/
lemma survivor_conditions (cfg : EngineConfig) (bs : List Baseline) (we : Bool)
    (st : HState) (r : Result) (depth : Nat)
    (hsurv : survives ((handleDirectoryResult cfg bs we st r depth).2) = true) :
    r.isError = false ∧ r.statusCode ≠ 404 ∧ r.statusCode ∉ cfg.filterCodes ∧
    ¬(500 ≤ r.statusCode) ∧ r.size ∉ cfg.excludeSizes ∧
    isSoft404 bs r.bodyHash r.size = false ∧
    (trackSoft404Size st.counts r.size r.statusCode).1 = false := by
  have h1 : r.isError = false := by
    by_contra hc
    have h1t : r.isError = true := by simpa using hc
    simp [handleDirectoryResult, h1t, survives] at hsurv
  have h2 : r.statusCode ≠ 404 := by
    intro hc
    simp [handleDirectoryResult, h1, hc, survives] at hsurv
  have h3 : r.statusCode ∉ cfg.filterCodes := by
    intro hc
    simp [handleDirectoryResult, h1, hc, survives] at hsurv
  have h4 : ¬(500 ≤ r.statusCode) := by
    intro hc
    simp [handleDirectoryResult, h1, h2, h3, hc, survives] at hsurv
  have h5 : r.size ∉ cfg.excludeSizes := by
    intro hc
    simp [handleDirectoryResult, h1, h2, h3, h4, hc, survives] at hsurv
  have h6 : isSoft404 bs r.bodyHash r.size = false := by
    by_contra hc
    have h6t : isSoft404 bs r.bodyHash r.size = true := by simpa using hc
    simp [handleDirectoryResult, h1, h2, h3, h4, h5, h6t, survives] at hsurv
  have h7 : (trackSoft404Size st.counts r.size r.statusCode).1 = false := by
    by_contra hc
    have h7t : (trackSoft404Size st.counts r.size r.statusCode).1 = true := by
      simpa using hc
    simp [handleDirectoryResult, h1, h2, h3, h4, h5, h6, h7t, survives] at hsurv
  exact ⟨h1, h2, h3, h4, h5, h6, h7⟩

/-- On a result that passed every filter guard, `handleDirectoryResults`
reaches the printer: the action is determined by the printer's decision,
the reliable-status check and the output dedup set. -/
lemma handleDir_action_eq (cfg : EngineConfig) (bs : List Baseline) (we : Bool)
    (st : HState) (r : Result) (depth : Nat)
    (h1 : r.isError = false) (h2 : r.statusCode ≠ 404)
    (h3 : r.statusCode ∉ cfg.filterCodes) (h4 : ¬(500 ≤ r.statusCode))
    (h5 : r.size ∉ cfg.excludeSizes)
    (h6 : isSoft404 bs r.bodyHash r.size = false)
    (h7 : (trackSoft404Size st.counts r.size r.statusCode).1 = false) :
    (handleDirectoryResult cfg bs we st r depth).2 =
      if shouldPrint cfg.statusCodes r.statusCode then
        ⟨false, false, false, false, true, isDirectory r.url r.statusCode, true,
         (if isReliableResult r.statusCode && we then
            writeUniqueURL st.outputURLs r.url
          else (st.outputURLs, none)).2.isSome,
         isDirectory r.url r.statusCode &&
           (r.statusCode == 200 || r.statusCode == 301 || r.statusCode == 302 ||
            r.statusCode == 307 || r.statusCode == 308)⟩
      else
        ⟨false, false, false, false, true, isDirectory r.url r.statusCode,
         false, false, false⟩ := by
  simp only [handleDirectoryResult, h1, Bool.false_eq_true, if_false]
  simp [h2, h3, h4, h5, h6, h7]
  split <;> rfl

/-- C5 (amended): every result surviving the directory-phase filter chain is
passed to the Output Sink's printer; when the printer accepts its status and
it is a directory with one of the recursion-worthy statuses
{200, 301, 302, 307, 308} (in particular whenever recursion is on and its
depth is below max depth), it is registered in the Directory registry. -/
theorem c5_forward_and_register :
    ∀ (cfg : EngineConfig) (bs : List Baseline) (we : Bool) (st : HState)
      (r : Result) (depth : Nat),
    survives ((handleDirectoryResult cfg bs we st r depth).2) = true →
    ((handleDirectoryResult cfg bs we st r depth).2).forwarded = true ∧
    (shouldPrint cfg.statusCodes r.statusCode = true →
     cfg.recursive = true → depth < cfg.maxDepth →
     isDirectory r.url r.statusCode = true →
     (r.statusCode = 200 ∨ r.statusCode = 301 ∨ r.statusCode = 302 ∨
      r.statusCode = 307 ∨ r.statusCode = 308) →
     ((handleDirectoryResult cfg bs we st r depth).2).registered = true) := by
  intro cfg bs we st r depth hsurv
  obtain ⟨h1, h2, h3, h4, h5, h6, h7⟩ :=
    survivor_conditions cfg bs we st r depth hsurv
  rw [handleDir_action_eq cfg bs we st r depth h1 h2 h3 h4 h5 h6 h7]
  constructor
  · split <;> rfl
  · intro hsp _ _ hdir hsts
    simp only [hsp, if_true, hdir, Bool.true_and]
    rcases hsts with h | h | h | h | h <;> simp [h]

/-- C5 counterexample: with a user display filter of `[418]`, a surviving
status-200 directory result (recursion on, depth 0 below max depth 3) is NOT
registered in the Directory registry — registration happens only inside the
printer-accepted branch, which the claim omits. -/
theorem c5_counterexample :
    survives ((handleDirectoryResult ⟨[], [], true, 3, false, [], [], [418]⟩ []
      true initState ⟨"https://h/a".toList, 200, 7, "x".toList, 0, false⟩ 0).2) = true ∧
    isDirectory "https://h/a".toList 200 = true ∧
    ((handleDirectoryResult ⟨[], [], true, 3, false, [], [], [418]⟩ []
      true initState ⟨"https://h/a".toList, 200, 7, "x".toList, 0, false⟩ 0).2).registered = false := by
  refine ⟨by decide, by decide, by decide⟩

/-- C5 witness: a surviving status-200 directory result, accepted by the
default printer, with recursion on and depth 0 below max depth 3, is
registered. -/
theorem c5_witness :
    ((handleDirectoryResult cfgD [] true initState
      ⟨"https://h/a".toList, 200, 7, "x".toList, 0, false⟩ 0).2).registered = true :=
  (c5_forward_and_register cfgD [] true initState
    ⟨"https://h/a".toList, 200, 7, "x".toList, 0, false⟩ 0 (by decide)).2
    (by decide) (by decide) (by decide) (by decide) (Or.inl (by decide))

/-- Any write from the directory handler was of a reliable-status result. -/
lemma wrote_reliable_dir (cfg : EngineConfig) (bs : List Baseline) (we : Bool)
    (st : HState) (r : Result) (depth : Nat) :
    ((handleDirectoryResult cfg bs we st r depth).2).wrote = true →
    isReliableResult r.statusCode = true := by
  unfold handleDirectoryResult
  dsimp only
  repeat' split
  all_goals intro hw
  all_goals simp_all

/-- Any write from the file handler was of a reliable-status result. -/
lemma wrote_reliable_file (cfg : EngineConfig) (bs : List Baseline) (we : Bool)
    (st : HState) (r : Result) :
    ((handleFileResult cfg bs we st r).2).wrote = true →
    isReliableResult r.statusCode = true := by
  unfold handleFileResult
  dsimp only
  repeat' split
  all_goals intro hw
  all_goals simp_all

/-- C6 (amended): the output-file sink's reliable subset is exactly
{200, 301, 302, 307, 308, 401, 403}: no write ever happens for a status
outside it, and a surviving, printer-accepted finding with a status in it is
written whenever file output is enabled and its normalized URL is new. -/
theorem c6_reliable_write :
    (∀ c : Int, isReliableResult c = true ↔
      (c = 200 ∨ c = 301 ∨ c = 302 ∨ c = 307 ∨ c = 308 ∨ c = 401 ∨ c = 403)) ∧
    (∀ (cfg : EngineConfig) (bs : List Baseline) (we : Bool) (st : HState)
      (r : Result) (depth : Nat),
      (((handleDirectoryResult cfg bs we st r depth).2).wrote = true →
        isReliableResult r.statusCode = true) ∧
      (((handleFileResult cfg bs we st r).2).wrote = true →
        isReliableResult r.statusCode = true) ∧
      (survives ((handleDirectoryResult cfg bs we st r depth).2) = true →
       shouldPrint cfg.statusCodes r.statusCode = true →
       isReliableResult r.statusCode = true → we = true →
       st.outputURLs.contains (trimSlashR r.url) = false →
       ((handleDirectoryResult cfg bs we st r depth).2).wrote = true)) := by
  constructor
  · intro c
    simp only [isReliableResult, Bool.or_eq_true, beq_iff_eq]
    tauto
  · intro cfg bs we st r depth
    refine ⟨wrote_reliable_dir cfg bs we st r depth,
      wrote_reliable_file cfg bs we st r, ?_⟩
    intro hsurv hsp hrel hwe hnc
    obtain ⟨h1, h2, h3, h4, h5, h6, h7⟩ :=
      survivor_conditions cfg bs we st r depth hsurv
    rw [handleDir_action_eq cfg bs we st r depth h1 h2 h3 h4 h5 h6 h7]
    have hnc' : trimSlashR r.url ∉ st.outputURLs := by simpa using hnc
    simp only [hsp, if_true, hrel, hwe, Bool.and_self, DirAction.wrote]
    simp [writeUniqueURL, hnc']

/-- Modelled from the spec: the §6 "reliable" status subset as the spec lists
it — `200/201/204/301/302/307/308/401/403/405`. -/
def specReliableCodes : List Int :=
  [200, 201, 204, 301, 302, 307, 308, 401, 403, 405]

/-- C6 counterexample: a surviving, printer-accepted status-201 finding with
file output enabled and a fresh URL is in the spec's reliable subset but is
never written — the source's subset omits 201 (and 204, 405). -/
theorem c6_counterexample :
    specReliableCodes.contains 201 = true ∧
    survives ((handleDirectoryResult cfgD [] true initState
      ⟨"https://h/a".toList, 201, 7, "x".toList, 0, false⟩ 0).2) = true ∧
    ((handleDirectoryResult cfgD [] true initState
      ⟨"https://h/a".toList, 201, 7, "x".toList, 0, false⟩ 0).2).printOk = true ∧
    ((handleDirectoryResult cfgD [] true initState
      ⟨"https://h/a".toList, 201, 7, "x".toList, 0, false⟩ 0).2).wrote = false := by
  refine ⟨by decide, by decide, by decide, by decide⟩

/-- C6 witness: a surviving status-200 finding with default printer, file
output enabled and a fresh URL is written. -/
theorem c6_witness :
    ((handleDirectoryResult cfgD [] true initState
      ⟨"https://h/b".toList, 200, 7, "x".toList, 0, false⟩ 0).2).wrote = true :=
  ((c6_reliable_write.2 cfgD [] true initState
    ⟨"https://h/b".toList, 200, 7, "x".toList, 0, false⟩ 0).2.2)
    (by decide) (by decide) (by decide) rfl (by decide)

/-- Chaining two visited-set-threaded URL generators: if the first emits
fresh, distinct URLs and inserts them, and the second does the same from the
first's final visited set, the concatenated output is fresh and distinct. -/
lemma spec_append {v v1 v2 us1 us2 : List Str}
    (h1n : us1.Nodup) (h1m : ∀ u ∈ us1, u ∉ v ∧ u ∈ v1)
    (h1v : ∀ x ∈ v, x ∈ v1)
    (h2n : us2.Nodup) (h2m : ∀ u ∈ us2, u ∉ v1 ∧ u ∈ v2)
    (h2v : ∀ x ∈ v1, x ∈ v2) :
    ((us1 ++ us2).Nodup) ∧ (∀ u ∈ us1 ++ us2, u ∉ v ∧ u ∈ v2) ∧
    ∀ x ∈ v, x ∈ v2 := by
  refine ⟨?_, ?_, fun x hx => h2v x (h1v x hx)⟩
  · refine List.Nodup.append h1n h2n ?_
    intro x hx hx2
    exact (h2m x hx2).1 ((h1m x hx).2)
  · intro u hu
    rcases List.mem_append.mp hu with hu | hu
    · exact ⟨(h1m u hu).1, h2v u (h1m u hu).2⟩
    · exact ⟨fun hv => (h2m u hu).1 (h1v u hv), (h2m u hu).2⟩

/-- Emitting one URL that was absent from the visited set, after inserting it
for the rest of the generation, keeps the output fresh and distinct. -/
lemma spec_cons_fresh {v rest1 : List Str} {us : List Str} {f : Str}
    (hfv : f ∉ v) (hn : us.Nodup)
    (hm : ∀ u ∈ us, u ∉ f :: v ∧ u ∈ rest1)
    (hvv : ∀ x ∈ f :: v, x ∈ rest1) :
    ((f :: us).Nodup) ∧ (∀ u ∈ f :: us, u ∉ v ∧ u ∈ rest1) ∧
    ∀ x ∈ v, x ∈ rest1 := by
  refine ⟨?_, ?_, fun x hx => hvv x (List.mem_cons_of_mem _ hx)⟩
  · exact List.nodup_cons.mpr
      ⟨fun hmem => (hm f hmem).1 (List.mem_cons_self _ _), hn⟩
  · intro u hu
    rcases List.mem_cons.mp hu with rfl | hu
    · exact ⟨hfv, hvv u (List.mem_cons_self _ _)⟩
    · exact ⟨fun hinv => (hm u hu).1 (List.mem_cons_of_mem _ hinv), (hm u hu).2⟩

/-- `buildDirectoryURLs` emits pairwise-distinct URLs, none already visited,
all inserted into the final visited set, which extends the initial one. -/
lemma buildDir_spec (a : Bool) (bp : Str) :
    ∀ (ws : List Str) (v : List Str),
    ((buildDirectoryURLs a bp v ws).2.Nodup) ∧
    (∀ u ∈ (buildDirectoryURLs a bp v ws).2,
      u ∉ v ∧ u ∈ (buildDirectoryURLs a bp v ws).1) ∧
    (∀ x ∈ v, x ∈ (buildDirectoryURLs a bp v ws).1) := by
  intro ws
  induction ws with
  | nil => intro v; exact ⟨List.nodup_nil, fun u hu => absurd hu (List.not_mem_nil u), fun x hx => hx⟩
  | cons w ws ih =>
    intro v
    cases hw : dirWord w with
    | none => simpa only [buildDirectoryURLs, hw] using ih v
    | some word =>
      simp only [buildDirectoryURLs, hw]
      by_cases hv : v.contains (bp ++ '/' :: word) = true
      · rw [if_pos hv]
        exact ih v
      · rw [if_neg hv]
        have hv' : (bp ++ '/' :: word) ∉ v := by simpa using hv
        cases a with
        | false =>
          rw [if_neg (by simp)]
          exact spec_cons_fresh hv' (ih _).1 (ih _).2.1 (ih _).2.2
        | true =>
          rw [if_pos rfl]
          by_cases hs :
              ((bp ++ '/' :: word) :: v).contains ((bp ++ '/' :: word) ++ ['/']) = true
          · rw [if_pos hs]
            exact spec_cons_fresh hv' (ih _).1 (ih _).2.1 (ih _).2.2
          · rw [if_neg hs]
            have hs' : ((bp ++ '/' :: word) ++ ['/']) ∉ (bp ++ '/' :: word) :: v := by
              simpa using hs
            have h1 := spec_cons_fresh hs' (ih _).1 (ih _).2.1 (ih _).2.2
            exact spec_cons_fresh hv' h1.1 h1.2.1 h1.2.2

/-- `buildExtURLs` emits pairwise-distinct fresh URLs and inserts them. -/
lemma buildExt_spec (bp word : Str) :
    ∀ (exts : List Str) (v : List Str),
    ((buildExtURLs bp word v exts).2.Nodup) ∧
    (∀ u ∈ (buildExtURLs bp word v exts).2,
      u ∉ v ∧ u ∈ (buildExtURLs bp word v exts).1) ∧
    (∀ x ∈ v, x ∈ (buildExtURLs bp word v exts).1) := by
  intro exts
  induction exts with
  | nil => intro v; exact ⟨List.nodup_nil, fun u hu => absurd hu (List.not_mem_nil u), fun x hx => hx⟩
  | cons ext exts ih =>
    intro v
    simp only [buildExtURLs]
    by_cases hv : v.contains (bp ++ '/' :: (word ++ '.' :: ext)) = true
    · rw [if_pos hv]
      exact ih v
    · rw [if_neg hv]
      have hv' : (bp ++ '/' :: (word ++ '.' :: ext)) ∉ v := by simpa using hv
      exact spec_cons_fresh hv' (ih _).1 (ih _).2.1 (ih _).2.2

/-- `buildFileURLs` emits pairwise-distinct fresh URLs and inserts them. -/
lemma buildFile_spec (exts : List Str) (bp : Str) :
    ∀ (ws : List Str) (v : List Str),
    ((buildFileURLs exts bp v ws).2.Nodup) ∧
    (∀ u ∈ (buildFileURLs exts bp v ws).2,
      u ∉ v ∧ u ∈ (buildFileURLs exts bp v ws).1) ∧
    (∀ x ∈ v, x ∈ (buildFileURLs exts bp v ws).1) := by
  intro ws
  induction ws with
  | nil => intro v; exact ⟨List.nodup_nil, fun u hu => absurd hu (List.not_mem_nil u), fun x hx => hx⟩
  | cons w ws ih =>
    intro v
    cases hw : fileWord w with
    | none => simpa only [buildFileURLs, hw] using ih v
    | some word =>
      simp only [buildFileURLs, hw]
      have h1 := buildExt_spec bp word exts v
      have h2 := ih (buildExtURLs bp word v exts).1
      exact spec_append h1.1 h1.2.1 h1.2.2 h2.1 h2.2.1 h2.2.2

/-- A sequence of builder invocations threading one visited set emits
pairwise-distinct fresh URLs overall. -/
lemma runBuilds_spec (words exts : List Str) (a : Bool) :
    ∀ (calls : List BuildCall) (v : List Str),
    ((runBuilds words exts a v calls).2.Nodup) ∧
    (∀ u ∈ (runBuilds words exts a v calls).2,
      u ∉ v ∧ u ∈ (runBuilds words exts a v calls).1) ∧
    (∀ x ∈ v, x ∈ (runBuilds words exts a v calls).1) := by
  intro calls
  induction calls with
  | nil => intro v; exact ⟨List.nodup_nil, fun u hu => absurd hu (List.not_mem_nil u), fun x hx => hx⟩
  | cons c cs ih =>
    intro v
    cases c with
    | dir bp =>
      simp only [runBuilds]
      have h1 := buildDir_spec a (trimSlashR bp) words v
      have h2 := ih (buildDirectoryURLs a (trimSlashR bp) v words).1
      exact spec_append h1.1 h1.2.1 h1.2.2 h2.1 h2.2.1 h2.2.2
    | file bp =>
      simp only [runBuilds]
      have h1 := buildFile_spec exts (trimSlashR bp) words v
      have h2 := ih (buildFileURLs exts (trimSlashR bp) v words).1
      exact spec_append h1.1 h1.2.1 h1.2.2 h2.1 h2.2.1 h2.2.2

/-- C2: across phase 1, every phase-2 directory scan and every phase-3 file
scan — all threading the one shared visited set, with check-and-insert before
a URL joins any job list — the job URLs are pairwise distinct: no URL is ever
submitted to the request pipeline twice in one run. -/
theorem c2_no_duplicate_urls :
    ∀ (words exts : List Str) (addSlash : Bool) (calls : List BuildCall),
    ((runBuilds words exts addSlash [] calls).2).Nodup :=
  fun words exts a calls => (runBuilds_spec words exts a calls []).1

/-- Every scan the phase-2 loop performs, starting at `depth` with `fuel`
remaining levels, stays below `depth + fuel`. -/
lemma phase2Aux_depth (f : Str → Nat → List Str) :
    ∀ (fuel : Nat) (registry : List Str) (depth : Nat) (p : Str × Nat),
    p ∈ (phase2Aux f fuel registry depth).2 → p.2 < depth + fuel := by
  intro fuel
  induction fuel with
  | zero => intro registry depth p hp; cases hp
  | succ fuel ih =>
    intro registry depth p hp
    simp only [phase2Aux] at hp
    split at hp
    · cases hp
    · rcases List.mem_append.mp hp with hp | hp
      · rcases List.mem_map.mp hp with ⟨d, _, rfl⟩
        omega
      · have := ih _ (depth + 1) p hp
        omega

/-- C3: every directory-discovery scan in a run happens at a depth at most
`maxDepth` (none of the directories registered at `maxDepth` is ever scanned
at `maxDepth + 1`), and as soon as no directory was registered at depth
`k - 1` the phase-2 loop performs no further scans. -/
theorem c3_depth_bound :
    (∀ (discover : Str → Nat → List Str) (base : Str) (recursive : Bool)
      (maxDepth : Nat) (p : Str × Nat),
      p ∈ (runScanTrace discover base recursive maxDepth).2 →
      p.2 ≤ maxDepth) ∧
    (∀ (discover : Str → Nat → List Str) (fuel : Nat) (registry : List Str)
      (depth : Nat),
      getDirectoriesAtDepth registry (depth - 1) = [] →
      (phase2Aux discover fuel registry depth).2 = []) := by
  constructor
  · intro discover base recursive maxDepth p hp
    simp only [runScanTrace] at hp
    split at hp
    · rcases List.mem_cons.mp hp with rfl | hp
      · exact Nat.zero_le _
      · have := phase2Aux_depth discover maxDepth _ 1 p hp
        omega
    · rcases List.mem_cons.mp hp with rfl | hp
      · exact Nat.zero_le _
      · cases hp
  · intro discover fuel registry depth hempty
    cases fuel with
    | zero => rfl
    | succ fuel => simp [phase2Aux, hempty]

/-- A discovery oracle that finds `/api` under the base URL and nothing
deeper. -/
def disc0 : Str → Nat → List Str :=
  fun _ d => if d = 0 then ["https://h/api".toList] else []

/-- C3 witness: with `maxDepth = 1`, the scan of the depth-0 discovery
`/api` happens at depth 1, within the bound. -/
theorem c3_witness :
    (("https://h/api".toList, 1) ∈ (runScanTrace disc0 "https://h".toList true 1).2) ∧
    (("https://h/api".toList, 1) : Str × Nat).2 ≤ 1 :=
  ⟨by decide,
   c3_depth_bound.1 disc0 "https://h".toList true 1 ("https://h/api".toList, 1)
     (by decide)⟩

end XSearch
